import Mathlib

/-!
Geometry demo (`src/demo/sample3.cpp`): shapes and the collection processor.

A shallow embedding of `Point`, `Shape` with its two concrete classes `Rectangle` and
`Circle`, and `GeometryProcessor` with `addShape`, `analyzeCollection` and
`getShapesByAreaRange`.

Modelling conventions, fixed once for the whole development:

* a C++ `double` is an exact rational number (`ℚ`): rounding, infinities and NaN are outside
  the model, and every statement about areas, sums and averages is a statement in exact
  arithmetic;
* `std::unique_ptr<Shape>` passed to `addShape` is an `Option Shape` (`none` is the null
  handle), and the owned `std::vector` is a `List Shape` in insertion order;
* a raw `Shape*` returned by `getShapesByAreaRange` is a pair of the slot the shape occupies in
  the owned vector and the shape found there;
* `std::map<std::string, int>` is its sequence of entries in strictly ascending key order,
  which is what lookups and iteration observe; the `int` counters are unbounded integers
  (signed overflow is undefined behaviour and needs more than two thousand million shapes of
  one type);
* `std::to_string` on a `double` is a parameter of `analyzeCollection`; on `size_t` and `int`
  it is the decimal rendering;
* `std::sort` is an insertion sort driven by the comparator of the source; the order it gives
  to elements the comparator does not separate is one of those `std::sort` may produce;
* the three public members are embedded twice: as functions of the processor state, and as
  programs in a state monad over the object (`Member`), in which a member read is `get` and a
  member write is `modify`; the programs are proved to compute the functions.
-/

namespace GeometryDemo

/-! ## Point and Shape -/

/-- Class `Point`: two coordinates. Its member `distanceTo` takes a square root, which has no
exact rational value, and is left out; nothing below reads it. -/
structure Point where
  x : ℚ
  y : ℚ
  deriving DecidableEq

/-- The fields the concrete subclasses add to `Shape`, and with them the override of
`area` and `perimeter` that applies. -/
inductive ShapeKind where
  | rectangle (width height : ℚ)
  | circle (radius : ℚ)
  deriving DecidableEq

/-- Class `Shape`: the base-class fields `name` and `vertices`, and the fields of the
concrete class. -/
structure Shape where
  name : String
  vertices : List Point
  kind : ShapeKind
  deriving DecidableEq

/-- Member `Shape::area`, dispatched on the concrete class: `width * height` for a rectangle,
`3.14159 * radius * radius` for a circle. -/
def Shape.area (s : Shape) : ℚ :=
  match s.kind with
  | .rectangle width height => width * height
  | .circle radius => 3.14159 * radius * radius

/-- Member `Shape::perimeter`: `2 * (width + height)` for a rectangle,
`2 * 3.14159 * radius` for a circle. -/
def Shape.perimeter (s : Shape) : ℚ :=
  match s.kind with
  | .rectangle width height => 2 * (width + height)
  | .circle radius => 2 * 3.14159 * radius

/-- Member `Shape::getName`. -/
def Shape.getName (s : Shape) : String := s.name

/-- Member `Shape::addVertex`. -/
def Shape.addVertex (s : Shape) (p : Point) : Shape :=
  { s with vertices := s.vertices ++ [p] }

/-- Member `Shape::getVertexCount`. -/
def Shape.getVertexCount (s : Shape) : Nat := s.vertices.length

/-- Constructor `Rectangle(w, h)`: base class built with the name "Rectangle". -/
def Rectangle (w h : ℚ) : Shape :=
  { name := "Rectangle", vertices := [], kind := .rectangle w h }

/-- Constructor `Circle(r)`: base class built with the name "Circle". -/
def Circle (r : ℚ) : Shape :=
  { name := "Circle", vertices := [], kind := .circle r }

/-! ## The type-count map -/

/-- The entries of a `std::map<std::string, int>` after `m[key]++`: a missing key is created
with the value-initialised counter `0` and then incremented; a present one is incremented in
place. Keys are compared with `<` only, as `std::less` does. -/
def incrEntries (key : String) : List (String × Int) → List (String × Int)
  | [] => [(key, 0 + 1)]
  | (k, c) :: rest =>
    if key < k then (key, 0 + 1) :: (k, c) :: rest
    else if k < key then (k, c) :: incrEntries key rest
    else (k, c + 1) :: rest

/-- Lookup of a key among the entries (`find`), `none` when the key is absent. -/
def findEntry (key : String) : List (String × Int) → Option Int
  | [] => none
  | (k, c) :: rest => if k = key then some c else findEntry key rest

/-- The keys of a list of entries are strictly ascending. -/
def KeysAscending (entries : List (String × Int)) : Prop :=
  entries.Pairwise (fun a b => a.1 < b.1)

/-- The member `shapeTypeCount`, a `std::map<std::string, int>`: its entries in iteration
order, which a `std::map` keeps strictly ascending by key. -/
structure StdMap where
  entries : List (String × Int)
  ascending : KeysAscending entries

/-- A default-constructed, empty `std::map`. -/
def StdMap.empty : StdMap := ⟨[], List.Pairwise.nil⟩

/-- The statement `m[key]++`; the entries stay strictly ascending. -/
def StdMap.incr (m : StdMap) (key : String) : StdMap where
  entries := incrEntries key m.entries
  ascending := by
    have origin : ∀ (l : List (String × Int)) (b : String × Int),
        b ∈ incrEntries key l → b.1 = key ∨ b ∈ l := by
      intro l
      induction l with
      | nil =>
        intro b hb
        simp only [incrEntries, List.mem_singleton] at hb
        left; rw [hb]
      | cons e rest ih =>
        intro b hb
        obtain ⟨k, c⟩ := e
        simp only [incrEntries] at hb
        split_ifs at hb with h1 h2
        · rcases List.mem_cons.mp hb with rfl | hb
          · left; rfl
          · right; exact hb
        · rcases List.mem_cons.mp hb with rfl | hb
          · right; exact List.mem_cons_self _ _
          · rcases ih b hb with h3 | h3
            · left; exact h3
            · right; exact List.mem_cons_of_mem _ h3
        · rcases List.mem_cons.mp hb with rfl | hb
          · left; exact le_antisymm (not_lt.mp h1) (not_lt.mp h2)
          · right; exact List.mem_cons_of_mem _ hb
    have step : ∀ l : List (String × Int), KeysAscending l →
        KeysAscending (incrEntries key l) := by
      intro l
      induction l with
      | nil => intro _; simp [KeysAscending, incrEntries]
      | cons e rest ih =>
        intro h
        obtain ⟨k, c⟩ := e
        obtain ⟨hk, hrest⟩ := List.pairwise_cons.mp h
        simp only [incrEntries]
        split_ifs with h1 h2
        · refine List.pairwise_cons.mpr ⟨?_, h⟩
          intro b hb
          rcases List.mem_cons.mp hb with rfl | hb
          · exact h1
          · exact lt_trans h1 (hk b hb)
        · refine List.pairwise_cons.mpr ⟨?_, ih hrest⟩
          intro b hb
          rcases origin rest b hb with h3 | h3
          · rw [h3]; exact h2
          · exact hk b h3
        · exact List.pairwise_cons.mpr ⟨hk, hrest⟩
    exact step m.entries m.ascending

/-- The counter stored under a key, `none` when the key is absent. -/
def StdMap.find (m : StdMap) (key : String) : Option Int := findEntry key m.entries

/-! ## GeometryProcessor -/

/-- Class `GeometryProcessor`: the owned shapes in insertion order and the type-count map. -/
structure GeometryProcessor where
  shapes : List Shape
  shapeTypeCount : StdMap

/-- A default-constructed processor: no shapes, empty map. -/
def GeometryProcessor.empty : GeometryProcessor := ⟨[], StdMap.empty⟩

/-- Member `addShape`: a null handle is ignored; otherwise the counter of the shape's name is
incremented and the shape is pushed at the back of the vector. -/
def GeometryProcessor.addShape (p : GeometryProcessor) (shape : Option Shape) :
    GeometryProcessor :=
  match shape with
  | none => p
  | some s =>
    let typeName := s.getName
    { shapes := p.shapes ++ [s], shapeTypeCount := p.shapeTypeCount.incr typeName }

/-- A sequence of `addShape` calls on a default-constructed processor. -/
def GeometryProcessor.build (calls : List (Option Shape)) : GeometryProcessor :=
  calls.foldl GeometryProcessor.addShape GeometryProcessor.empty

/-! ## analyzeCollection -/

/-- The constant `std::numeric_limits<double>::max()`, the largest finite binary64 value. -/
def DBL_MAX : ℚ := 2 ^ 1024 - 2 ^ 971

/-- The local variables the loop of `analyzeCollection` updates. -/
structure LoopVars where
  totalArea : ℚ
  totalPerimeter : ℚ
  maxArea : ℚ
  minArea : ℚ
  largestShape : String
  smallestShape : String
  deriving DecidableEq

/-- The locals as initialised before the loop. -/
def loopInit : LoopVars :=
  { totalArea := 0, totalPerimeter := 0, maxArea := 0, minArea := DBL_MAX,
    largestShape := "", smallestShape := "" }

/-- One iteration of the loop of `analyzeCollection`. -/
def loopBody (v : LoopVars) (shape : Shape) : LoopVars :=
  let area := shape.area
  let perimeter := shape.perimeter
  let v1 := { v with totalArea := v.totalArea + area,
                     totalPerimeter := v.totalPerimeter + perimeter }
  let v2 := if area > v1.maxArea then
      { v1 with maxArea := area, largestShape := shape.getName } else v1
  if area < v2.minArea then
    { v2 with minArea := area, smallestShape := shape.getName } else v2

/-- The whole loop `for (const auto& shape : shapes)`. -/
def analyzeLoop (shapes : List Shape) : LoopVars :=
  shapes.foldl loopBody loopInit

/-- The values `analyzeCollection` writes into its report, in the order it writes them. -/
structure Report where
  totalShapes : Nat
  totalArea : ℚ
  totalPerimeter : ℚ
  averageArea : ℚ
  largestShape : String
  maxArea : ℚ
  smallestShape : String
  minArea : ℚ
  distribution : List (String × Int × ℚ)
  deriving DecidableEq

/-- The values computed by `analyzeCollection` on a non-empty collection: the loop results,
`totalArea / shapes.size()`, and for every entry of the type-count map, in iteration order,
its count and `(static_cast<double>(count) / shapes.size()) * 100`. -/
def GeometryProcessor.report (p : GeometryProcessor) : Report :=
  let v := analyzeLoop p.shapes
  { totalShapes := p.shapes.length
    totalArea := v.totalArea
    totalPerimeter := v.totalPerimeter
    averageArea := v.totalArea / (p.shapes.length : ℚ)
    largestShape := v.largestShape
    maxArea := v.maxArea
    smallestShape := v.smallestShape
    minArea := v.minArea
    distribution := p.shapeTypeCount.entries.map
      (fun e => (e.1, e.2, ((e.2 : ℚ) / (p.shapes.length : ℚ)) * 100)) }

/-- The first line of the report. -/
def header : String := "=== GEOMETRY ANALYSIS ===\n"

/-- The string returned for a processor without shapes. -/
def noShapes : String := "No shapes to analyze"

/-- The lines appended after the loop, up to the title of the distribution section. -/
def Report.summary (to_string : ℚ → String) (r : Report) : String :=
  "Total Shapes: " ++ toString r.totalShapes ++ "\n"
    ++ ("Total Area: " ++ to_string r.totalArea ++ "\n")
    ++ ("Total Perimeter: " ++ to_string r.totalPerimeter ++ "\n")
    ++ ("Average Area: " ++ to_string r.averageArea ++ "\n")
    ++ ("Largest Shape: " ++ r.largestShape ++ " (Area: " ++ to_string r.maxArea ++ ")\n")
    ++ ("Smallest Shape: " ++ r.smallestShape ++ " (Area: " ++ to_string r.minArea ++ ")\n")
    ++ "\nShape Type Distribution:\n"

/-- One line of the distribution section. -/
def distributionLine (to_string : ℚ → String) (e : String × Int × ℚ) : String :=
  "  " ++ e.1 ++ ": " ++ toString e.2.1 ++ " (" ++ to_string e.2.2 ++ "%)\n"

/-- The text of a report: header, summary lines, one line per distribution entry. -/
def Report.render (to_string : ℚ → String) (r : Report) : String :=
  r.distribution.foldl (fun analysis e => analysis ++ distributionLine to_string e)
    (header ++ r.summary to_string)

/-- Member `analyzeCollection`; `to_string` is `std::to_string` on `double`. -/
def GeometryProcessor.analyzeCollection (to_string : ℚ → String) (p : GeometryProcessor) :
    String :=
  if p.shapes.isEmpty then noShapes
  else p.report.render to_string

/-! ## getShapesByAreaRange -/

/-- A non-owning `Shape*` into the owned vector: the slot and the shape stored there. -/
abbrev ShapePtr := Nat × Shape

/-- The area read through a `Shape*`. -/
def ptrArea (a : ShapePtr) : ℚ := a.2.area

/-- One insertion step of the sort: `a` goes in front of the first element the comparator
puts it before. -/
def sortInsert {α : Type} (comp : α → α → Bool) (a : α) : List α → List α
  | [] => [a]
  | b :: rest => if comp a b then a :: b :: rest else b :: sortInsert comp a rest

/-- The call `std::sort(begin, end, comp)`. -/
def stdSort {α : Type} (comp : α → α → Bool) : List α → List α
  | [] => []
  | a :: rest => sortInsert comp a (stdSort comp rest)

/-- The comparator of the source: `a->area() > b->area()`. -/
def areaGreater (a b : ShapePtr) : Bool := decide (ptrArea a > ptrArea b)

/-- The loop of `getShapesByAreaRange`: the pointers to the shapes whose area passes
`area >= minArea && area <= maxArea`, in insertion order. -/
def filterByArea (shapes : List Shape) (minArea maxArea : ℚ) : List ShapePtr :=
  shapes.enum.filter (fun a => decide (a.2.area ≥ minArea) && decide (a.2.area ≤ maxArea))

/-- Member `getShapesByAreaRange`. -/
def GeometryProcessor.getShapesByAreaRange (p : GeometryProcessor) (minArea maxArea : ℚ) :
    List ShapePtr :=
  let filtered := filterByArea p.shapes minArea maxArea
  stdSort areaGreater filtered

/-- The collection `main` builds: `Rectangle(5, 3)`, `Circle(2.5)`, `Rectangle(8, 4)`,
`Circle(1.5)`, added in this order. -/
def demoProcessor : GeometryProcessor :=
  GeometryProcessor.build
    [some (Rectangle 5 3), some (Circle 2.5), some (Rectangle 8 4), some (Circle 1.5)]

/-! ## The members as programs on the object

The three public members once more, this time as programs that run on the object and leave an
object behind: reading a member of the object is `get`, assigning to one is `modify`. Each body
follows its source statement by statement, so whether a member changes the object is a property
of its body. -/

/-- A member function of `GeometryProcessor` returning an `α`. -/
abbrev Member (α : Type) : Type := StateM GeometryProcessor α

/-- Running a member function on an object: the value returned and the object left behind. -/
def Member.runOn {α : Type} (m : Member α) (self : GeometryProcessor) :
    α × GeometryProcessor :=
  Id.run (StateT.run m self)

/-- Member `addShape` (lines 55-61): under the guard `if (shape)`, the statement
`shapeTypeCount[typeName]++` and then `shapes.push_back(std::move(shape))`. -/
def Member.addShape (shape : Option Shape) : Member Unit := do
  match shape with
  | none => pure ()
  | some s =>
    let typeName := s.getName
    modify (fun self => { self with shapeTypeCount := self.shapeTypeCount.incr typeName })
    modify (fun self => { self with shapes := self.shapes ++ [s] })

/-- Member `analyzeCollection` (lines 64-110): the early return on `shapes.empty()`, the loop
over `shapes` updating the locals, the six lines appended to `analysis`, and the loop over
`shapeTypeCount` appending one line per entry. -/
def Member.analyzeCollection (to_string : ℚ → String) : Member String := do
  if (← get).shapes.isEmpty then
    return "No shapes to analyze"
  let mut analysis := "=== GEOMETRY ANALYSIS ===\n"
  let mut v := loopInit
  for shape in (← get).shapes do
    v := loopBody v shape
  analysis := analysis ++ ("Total Shapes: " ++ toString (← get).shapes.length ++ "\n")
  analysis := analysis ++ ("Total Area: " ++ to_string v.totalArea ++ "\n")
  analysis := analysis ++ ("Total Perimeter: " ++ to_string v.totalPerimeter ++ "\n")
  analysis := analysis
    ++ ("Average Area: " ++ to_string (v.totalArea / ((← get).shapes.length : ℚ)) ++ "\n")
  analysis := analysis
    ++ ("Largest Shape: " ++ v.largestShape ++ " (Area: " ++ to_string v.maxArea ++ ")\n")
  analysis := analysis
    ++ ("Smallest Shape: " ++ v.smallestShape ++ " (Area: " ++ to_string v.minArea ++ ")\n")
  analysis := analysis ++ "\nShape Type Distribution:\n"
  for e in (← get).shapeTypeCount.entries do
    let percentage := ((e.2 : ℚ) / ((← get).shapes.length : ℚ)) * 100
    analysis := analysis
      ++ ("  " ++ e.1 ++ ": " ++ toString e.2 ++ " (" ++ to_string percentage ++ "%)\n")
  return analysis

/-- Member `getShapesByAreaRange` (lines 113-130): the loop over `shapes` pushing
`shape.get()` onto the local `filtered` when `area >= minArea && area <= maxArea`, then
`std::sort` on `filtered` with the comparator of the source. -/
def Member.getShapesByAreaRange (minArea maxArea : ℚ) : Member (List ShapePtr) := do
  let mut filtered : List ShapePtr := []
  for shape in (← get).shapes.enum do
    let area := shape.2.area
    if area ≥ minArea && area ≤ maxArea then
      filtered := filtered ++ [shape]
  return stdSort areaGreater filtered

/-! ## Calls on a processor -/

/-- A call of one of the three public members of `GeometryProcessor`. -/
inductive Call where
  | addShape (shape : Option Shape)
  | analyzeCollection
  | getShapesByAreaRange (minArea maxArea : ℚ)

/-- What a call returns: nothing for `addShape`, the report text for `analyzeCollection`, the
pointer list for `getShapesByAreaRange`. -/
inductive Output where
  | nothing
  | text (analysis : String)
  | pointers (filtered : List ShapePtr)
  deriving DecidableEq

/-- One call on a processor: the member is run on the object; the object it leaves behind is
the state after the call. -/
def GeometryProcessor.call (to_string : ℚ → String) (p : GeometryProcessor) :
    Call → GeometryProcessor × Output
  | .addShape shape =>
    (((Member.addShape shape).runOn p).2, .nothing)
  | .analyzeCollection =>
    (((Member.analyzeCollection to_string).runOn p).2,
      .text ((Member.analyzeCollection to_string).runOn p).1)
  | .getShapesByAreaRange minArea maxArea =>
    (((Member.getShapesByAreaRange minArea maxArea).runOn p).2,
      .pointers ((Member.getShapesByAreaRange minArea maxArea).runOn p).1)

/-- A sequence of calls, one after the other: the final state and the values returned, in
call order. -/
def GeometryProcessor.run (to_string : ℚ → String) (p : GeometryProcessor) :
    List Call → GeometryProcessor × List Output
  | [] => (p, [])
  | c :: rest =>
    let r := GeometryProcessor.run to_string (p.call to_string c).1 rest
    (r.1, (p.call to_string c).2 :: r.2)

/-- The call is one of the two queries, not `addShape`. -/
def Call.isQuery : Call → Bool
  | .addShape _ => false
  | .analyzeCollection => true
  | .getShapesByAreaRange _ _ => true

/-! ## Auxiliary definitions used in the proofs -/

/-- A running maximum of `f` over the shapes seen so far, with the name of the shape that set
it: the pattern `if (x > best) { best = x; bestName = shape->getName(); }` of the loop. -/
def trackStep (f : Shape → ℚ) (cur : ℚ × String) (s : Shape) : ℚ × String :=
  if f s > cur.1 then (f s, s.getName) else cur

/-- The type-count map agrees with the shape sequence: every name is mapped to the number of
owned shapes of that name (an absent name counting as 0), every entry holds a count of at
least 1, and the counts add up to the number of owned shapes. -/
def CountsConsistent (p : GeometryProcessor) : Prop :=
  (∀ name : String, (p.shapeTypeCount.find name).getD 0
      = ((p.shapes.countP (fun s => decide (s.getName = name)) : Nat) : Int))
    ∧ (∀ e ∈ p.shapeTypeCount.entries, 1 ≤ e.2)
    ∧ (p.shapeTypeCount.entries.map Prod.snd).sum = ((p.shapes.length : Nat) : Int)

/-! ## The range query: permutation and order -/

theorem sortInsert_perm {α : Type} (comp : α → α → Bool) (a : α) (l : List α) :
    (sortInsert comp a l).Perm (a :: l) := by
  induction l with
  | nil => exact List.Perm.refl _
  | cons b rest ih =>
    unfold sortInsert
    split_ifs
    · exact List.Perm.refl _
    · exact (List.Perm.cons b ih).trans (List.Perm.swap a b rest)

theorem stdSort_perm {α : Type} (comp : α → α → Bool) (l : List α) :
    (stdSort comp l).Perm l := by
  induction l with
  | nil => exact List.Perm.refl _
  | cons a rest ih =>
    unfold stdSort
    exact (sortInsert_perm comp a _).trans (List.Perm.cons a ih)

theorem sortInsert_areaGreater_sorted (a : ShapePtr) (l : List ShapePtr)
    (h : l.Pairwise (fun x y => ptrArea x ≥ ptrArea y)) :
    (sortInsert areaGreater a l).Pairwise (fun x y => ptrArea x ≥ ptrArea y) := by
  induction l with
  | nil => simp [sortInsert]
  | cons b rest ih =>
    obtain ⟨hb, hrest⟩ := List.pairwise_cons.mp h
    unfold sortInsert
    by_cases hc : areaGreater a b = true
    · rw [if_pos hc]
      have hab : ptrArea a > ptrArea b := by simpa [areaGreater] using hc
      refine List.pairwise_cons.mpr ⟨?_, h⟩
      intro y hy
      rcases List.mem_cons.mp hy with rfl | hy
      · exact le_of_lt hab
      · exact le_trans (hb y hy) (le_of_lt hab)
    · rw [if_neg hc]
      have hba : ptrArea b ≥ ptrArea a := by
        have : ¬ ptrArea a > ptrArea b := by simpa [areaGreater] using hc
        exact not_lt.mp this
      refine List.pairwise_cons.mpr ⟨?_, ih hrest⟩
      intro y hy
      rcases List.mem_cons.mp ((sortInsert_perm areaGreater a rest).subset hy) with rfl | hy
      · exact hba
      · exact hb y hy

theorem stdSort_areaGreater_sorted (l : List ShapePtr) :
    (stdSort areaGreater l).Pairwise (fun x y => ptrArea x ≥ ptrArea y) := by
  induction l with
  | nil => simp [stdSort]
  | cons a rest ih =>
    unfold stdSort
    exact sortInsert_areaGreater_sorted a _ ih

theorem enumFrom_filter_map_snd (f : Shape → Bool) (l : List Shape) (n : Nat) :
    ((l.enumFrom n).filter (fun a => f a.2)).map Prod.snd = l.filter f := by
  induction l generalizing n with
  | nil => rfl
  | cons s rest ih =>
    rw [List.enumFrom_cons]
    by_cases hs : f s = true
    · rw [List.filter_cons_of_pos (by simpa using hs), List.filter_cons_of_pos hs,
        List.map_cons, ih]
    · rw [List.filter_cons_of_neg (by simpa using hs), List.filter_cons_of_neg hs, ih]

theorem enum_nodup (l : List Shape) : l.enum.Nodup :=
  List.Nodup.of_map Prod.fst (List.nodup_enum_map_fst l)

/-- Claim C1. For every processor and every `minArea`, `maxArea`, the list returned by
`getShapesByAreaRange` (1) points to exactly the owned shapes whose area lies in
`[minArea, maxArea]`, both bounds included: the shapes pointed to are a permutation of the
owned shapes that match, no pointer occurs twice, and a pointer occurs if and only if it is
the slot of an owned shape that matches; and (2) is ordered by non-increasing area. -/
theorem getShapesByAreaRange_selects_and_sorts (p : GeometryProcessor) (minArea maxArea : ℚ) :
    ((p.getShapesByAreaRange minArea maxArea).map Prod.snd).Perm
        (p.shapes.filter (fun s => decide (minArea ≤ s.area ∧ s.area ≤ maxArea)))
      ∧ (p.getShapesByAreaRange minArea maxArea).Nodup
      ∧ (∀ a : ShapePtr, a ∈ p.getShapesByAreaRange minArea maxArea ↔
          (p.shapes[a.1]? = some a.2 ∧ minArea ≤ a.2.area ∧ a.2.area ≤ maxArea))
      ∧ (p.getShapesByAreaRange minArea maxArea).Pairwise
          (fun a b => a.2.area ≥ b.2.area) := by
  have hperm := stdSort_perm areaGreater (filterByArea p.shapes minArea maxArea)
  refine ⟨?_, ?_, ?_, ?_⟩
  · refine (hperm.map Prod.snd).trans ?_
    have h := enumFrom_filter_map_snd
      (fun s => decide (s.area ≥ minArea) && decide (s.area ≤ maxArea)) p.shapes 0
    unfold filterByArea List.enum
    rw [h]
    have hfun : (fun s : Shape => decide (s.area ≥ minArea) && decide (s.area ≤ maxArea))
        = (fun s : Shape => decide (minArea ≤ s.area ∧ s.area ≤ maxArea)) := by
      funext s
      simp
    rw [hfun]
  · exact hperm.nodup_iff.mpr ((enum_nodup p.shapes).filter _)
  · intro a
    unfold GeometryProcessor.getShapesByAreaRange
    rw [hperm.mem_iff]
    unfold filterByArea
    rw [List.mem_filter, List.mem_enum_iff_getElem?]
    simp
  · exact stdSort_areaGreater_sorted _

/-! ## The range query on the demo collection -/

theorem demoProcessor_shapes :
    demoProcessor.shapes = [Rectangle 5 3, Circle 2.5, Rectangle 8 4, Circle 1.5] := by
  simp [demoProcessor, GeometryProcessor.build, GeometryProcessor.addShape,
    GeometryProcessor.empty]

theorem demoProcessor_range_10_20 :
    demoProcessor.getShapesByAreaRange 10 20 = [(1, Circle 2.5), (0, Rectangle 5 3)] := by
  unfold GeometryProcessor.getShapesByAreaRange filterByArea
  rw [demoProcessor_shapes]
  norm_num [List.enum, List.enumFrom, List.filter, Shape.area, Rectangle, Circle, stdSort,
    sortInsert, areaGreater, ptrArea]

/-- Claim C2 as stated fails: on the demo collection `getShapesByAreaRange(10, 20)` does not
return the one-element list `[Rectangle(5,3)]`: `Circle(2.5)` has area `19.6349375`, inside
the range. -/
theorem range_10_20_is_not_the_single_rectangle :
    (demoProcessor.getShapesByAreaRange 10 20).map Prod.snd ≠ [Rectangle 5 3] := by
  rw [demoProcessor_range_10_20]
  simp

/-- Claim C2, amended. On the processor built by adding `Rectangle(5,3)`, `Circle(2.5)`,
`Rectangle(8,4)`, `Circle(1.5)` in this order, `getShapesByAreaRange(10, 20)` returns exactly
the two-element list `[Circle(2.5), Rectangle(5,3)]`, of areas `19.6349375` and `15`: the
pointers to slot 1 and slot 0 of the owned vector. -/
theorem demo_range_10_20 :
    demoProcessor.getShapesByAreaRange 10 20 = [(1, Circle 2.5), (0, Rectangle 5 3)]
      ∧ (demoProcessor.getShapesByAreaRange 10 20).map (fun a => a.2.area)
          = [19.6349375, 15] := by
  rw [demoProcessor_range_10_20]
  refine ⟨rfl, ?_⟩
  norm_num [Shape.area, Rectangle, Circle]

/-! ## The loop of analyzeCollection: maximum and minimum tracking -/

theorem loopBody_max (v : LoopVars) (s : Shape) :
    ((loopBody v s).maxArea, (loopBody v s).largestShape)
      = trackStep Shape.area (v.maxArea, v.largestShape) s := by
  unfold loopBody trackStep
  simp only
  split_ifs <;> rfl

theorem loopBody_min (v : LoopVars) (s : Shape) :
    (-(loopBody v s).minArea, (loopBody v s).smallestShape)
      = trackStep (fun t => -t.area) (-v.minArea, v.smallestShape) s := by
  unfold loopBody trackStep
  simp only [gt_iff_lt, neg_lt_neg_iff]
  split_ifs <;> rfl

theorem foldl_loopBody_max (shapes : List Shape) (v : LoopVars) :
    ((shapes.foldl loopBody v).maxArea, (shapes.foldl loopBody v).largestShape)
      = shapes.foldl (trackStep Shape.area) (v.maxArea, v.largestShape) := by
  induction shapes generalizing v with
  | nil => rfl
  | cons s rest ih => rw [List.foldl_cons, List.foldl_cons, ih, loopBody_max]

theorem foldl_loopBody_min (shapes : List Shape) (v : LoopVars) :
    (-(shapes.foldl loopBody v).minArea, (shapes.foldl loopBody v).smallestShape)
      = shapes.foldl (trackStep (fun t => -t.area)) (-v.minArea, v.smallestShape) := by
  induction shapes generalizing v with
  | nil => rfl
  | cons s rest ih => rw [List.foldl_cons, List.foldl_cons, ih, loopBody_min]

theorem trackStep_ge (f : Shape → ℚ) (cur : ℚ × String) (s : Shape) :
    cur.1 ≤ (trackStep f cur s).1 ∧ f s ≤ (trackStep f cur s).1 := by
  unfold trackStep
  split_ifs with h
  · exact ⟨le_of_lt h, le_refl _⟩
  · exact ⟨le_refl _, not_lt.mp h⟩

theorem track_bounds (f : Shape → ℚ) (shapes : List Shape) (cur : ℚ × String) :
    cur.1 ≤ (shapes.foldl (trackStep f) cur).1
      ∧ ∀ s ∈ shapes, f s ≤ (shapes.foldl (trackStep f) cur).1 := by
  induction shapes generalizing cur with
  | nil => exact ⟨le_refl _, fun s hs => absurd hs (List.not_mem_nil s)⟩
  | cons s rest ih =>
    rw [List.foldl_cons]
    obtain ⟨h1, h2⟩ := ih (trackStep f cur s)
    obtain ⟨h3, h4⟩ := trackStep_ge f cur s
    refine ⟨le_trans h3 h1, ?_⟩
    intro t ht
    rcases List.mem_cons.mp ht with rfl | ht
    · exact le_trans h4 h1
    · exact h2 t ht

/-- Where the tracked pair comes from: either no shape beat the initial value, or the pair was
set by a shape that beats the initial value and every shape before it. -/
theorem track_origin (f : Shape → ℚ) (shapes : List Shape) (cur : ℚ × String) :
    (shapes.foldl (trackStep f) cur = cur ∧ ∀ s ∈ shapes, f s ≤ cur.1)
      ∨ ∃ pre s post, shapes = pre ++ s :: post
          ∧ shapes.foldl (trackStep f) cur = (f s, s.getName)
          ∧ (∀ t ∈ pre, f t < f s) ∧ cur.1 < f s := by
  induction shapes generalizing cur with
  | nil => exact Or.inl ⟨rfl, fun s hs => absurd hs (List.not_mem_nil s)⟩
  | cons s rest ih =>
    rw [List.foldl_cons]
    rcases ih (trackStep f cur s) with ⟨heq, hall⟩ | ⟨pre, t, post, hsplit, heq, hpre, hlt⟩
    · by_cases h : f s > cur.1
      · right
        refine ⟨[], s, rest, rfl, ?_, fun t ht => absurd ht (List.not_mem_nil t), h⟩
        rw [heq]
        unfold trackStep
        rw [if_pos h]
      · left
        have hstep : trackStep f cur s = cur := by
          unfold trackStep
          rw [if_neg h]
        rw [hstep] at heq hall ⊢
        refine ⟨heq, ?_⟩
        intro t ht
        rcases List.mem_cons.mp ht with rfl | ht
        · exact not_lt.mp h
        · exact hall t ht
    · right
      obtain ⟨h3, h4⟩ := trackStep_ge f cur s
      refine ⟨s :: pre, t, post, by rw [hsplit]; rfl, heq, ?_, lt_of_le_of_lt h3 hlt⟩
      intro u hu
      rcases List.mem_cons.mp hu with rfl | hu
      · exact lt_of_le_of_lt h4 hlt
      · exact hpre u hu

theorem find_first (q : Shape → Bool) (pre post : List Shape) (s : Shape)
    (hpre : ∀ t ∈ pre, q t = false) (hs : q s = true) :
    (pre ++ s :: post).find? q = some s := by
  induction pre with
  | nil => simp [List.find?, hs]
  | cons t rest ih =>
    rw [List.cons_append, List.find?_cons_of_neg]
    · exact ih (fun u hu => hpre u (List.mem_cons_of_mem _ hu))
    · simp [hpre t (List.mem_cons_self _ _)]

/-- When some shape beats the initial value, the tracked value is the greatest `f` over the
shapes and the tracked name is that of the first shape reaching it. -/
theorem track_first (f : Shape → ℚ) (shapes : List Shape) (cur : ℚ × String) (M : ℚ)
    (hmem : ∃ s ∈ shapes, f s = M) (hub : ∀ s ∈ shapes, f s ≤ M) (hlt : cur.1 < M) :
    (shapes.foldl (trackStep f) cur).1 = M
      ∧ ∃ s, shapes.find? (fun t => decide (f t = M)) = some s
          ∧ (shapes.foldl (trackStep f) cur).2 = s.getName := by
  obtain ⟨s0, hs0, hs0M⟩ := hmem
  rcases track_origin f shapes cur with ⟨_, hall⟩ | ⟨pre, s, post, hsplit, heq, hpre, _⟩
  · exact absurd (hall s0 hs0) (by rw [hs0M]; exact not_le.mpr hlt)
  · have hs : s ∈ shapes := by rw [hsplit]; simp
    have hM : f s = M := by
      apply le_antisymm (hub s hs)
      have := (track_bounds f shapes cur).2 s0 hs0
      rw [heq, hs0M] at this
      exact this
    refine ⟨by rw [heq]; exact hM, s, ?_, by rw [heq]⟩
    rw [hsplit]
    apply find_first
    · intro t ht
      have := hpre t ht
      rw [hM] at this
      simpa using ne_of_lt this
    · simpa using hM

theorem analyzeCollection_nonempty (to_string : ℚ → String) (p : GeometryProcessor)
    (hne : p.shapes ≠ []) : p.analyzeCollection to_string = p.report.render to_string := by
  unfold GeometryProcessor.analyzeCollection
  rw [if_neg]
  simpa using hne

theorem report_max (p : GeometryProcessor) :
    (p.report.maxArea, p.report.largestShape)
      = p.shapes.foldl (trackStep Shape.area) (0, "") :=
  foldl_loopBody_max p.shapes loopInit

theorem report_min (p : GeometryProcessor) :
    (-p.report.minArea, p.report.smallestShape)
      = p.shapes.foldl (trackStep (fun t => -t.area)) (-DBL_MAX, "") :=
  foldl_loopBody_min p.shapes loopInit

/-- Claim C3, evaluated at the failing input. On the processor holding the single shape
`Rectangle(0, 0)`, whose area is 0 and whose name is "Rectangle", `analyzeCollection` reports
the largest area 0 with the empty string as the name of the largest shape, while the smallest
shape is reported as "Rectangle". -/
theorem zero_area_largest_name_is_empty :
    (Rectangle 0 0).area = 0
      ∧ (Rectangle 0 0).getName = "Rectangle"
      ∧ (GeometryProcessor.build [some (Rectangle 0 0)]).shapes = [Rectangle 0 0]
      ∧ (GeometryProcessor.build [some (Rectangle 0 0)]).report.maxArea = 0
      ∧ (GeometryProcessor.build [some (Rectangle 0 0)]).report.largestShape = ""
      ∧ (GeometryProcessor.build [some (Rectangle 0 0)]).report.smallestShape
          = "Rectangle" := by
  have hshapes : (GeometryProcessor.build [some (Rectangle 0 0)]).shapes = [Rectangle 0 0] := by
    simp [GeometryProcessor.build, GeometryProcessor.addShape, GeometryProcessor.empty]
  have harea : (Rectangle 0 0).area = 0 := by norm_num [Shape.area, Rectangle]
  have hmax := report_max (GeometryProcessor.build [some (Rectangle 0 0)])
  have hmin := report_min (GeometryProcessor.build [some (Rectangle 0 0)])
  rw [hshapes] at hmax hmin
  have hbig : (0 : ℚ) < DBL_MAX := by norm_num [DBL_MAX]
  simp only [List.foldl_cons, List.foldl_nil, trackStep, harea, gt_iff_lt, lt_irrefl,
    if_false, neg_zero, Left.neg_neg_iff, hbig, if_true, Prod.mk.injEq] at hmax hmin
  exact ⟨harea, rfl, hshapes, hmax.1, hmax.2, hmin.2⟩

/-- Claim C4. For every collection whose maximum shape area `M` is strictly positive (`M` is the
area of an owned shape and no owned shape has a larger area, so the collection is not empty),
the largest-shape area reported by `analyzeCollection` is `M`, and the reported largest-shape
name is the name of the first shape, in insertion order, whose area equals `M`. -/
theorem analyze_largest_is_first_maximum (to_string : ℚ → String) (p : GeometryProcessor)
    (M : ℚ) (hmem : ∃ s ∈ p.shapes, s.area = M) (hub : ∀ s ∈ p.shapes, s.area ≤ M)
    (hpos : 0 < M) :
    p.analyzeCollection to_string = p.report.render to_string
      ∧ p.report.maxArea = M
      ∧ ∃ s, p.shapes.find? (fun t => decide (t.area = M)) = some s
          ∧ p.report.largestShape = s.getName := by
  have hne : p.shapes ≠ [] := by
    obtain ⟨s, hs, _⟩ := hmem
    exact List.ne_nil_of_mem hs
  have h := track_first Shape.area p.shapes (0, "") M hmem hub hpos
  rw [← report_max p] at h
  exact ⟨analyzeCollection_nonempty to_string p hne, h⟩

/-- Claim C5. For every collection in which at least one shape has area strictly below
`DBL_MAX`, the initial minimum, and whose minimum shape area is `m` (`m` is the area of an
owned shape and no owned shape has a smaller area), the smallest-shape area reported by
`analyzeCollection` is `m`, and the reported smallest-shape name is the name of the first
shape, in insertion order, whose area equals `m`. -/
theorem analyze_smallest_is_first_minimum (to_string : ℚ → String) (p : GeometryProcessor)
    (m : ℚ) (hmem : ∃ s ∈ p.shapes, s.area = m) (hlb : ∀ s ∈ p.shapes, m ≤ s.area)
    (hbelow : ∃ s ∈ p.shapes, s.area < DBL_MAX) :
    p.analyzeCollection to_string = p.report.render to_string
      ∧ p.report.minArea = m
      ∧ ∃ s, p.shapes.find? (fun t => decide (t.area = m)) = some s
          ∧ p.report.smallestShape = s.getName := by
  have hne : p.shapes ≠ [] := by
    obtain ⟨s, hs, _⟩ := hmem
    exact List.ne_nil_of_mem hs
  have hlt : m < DBL_MAX := by
    obtain ⟨s, hs, hslt⟩ := hbelow
    exact lt_of_le_of_lt (hlb s hs) hslt
  have h := track_first (fun t => -t.area) p.shapes (-DBL_MAX, "") (-m)
    (by obtain ⟨s, hs, hsm⟩ := hmem; exact ⟨s, hs, congrArg Neg.neg hsm⟩)
    (fun s hs => neg_le_neg (hlb s hs)) (neg_lt_neg hlt)
  rw [← report_min p] at h
  have hfun : (fun t : Shape => decide (-t.area = -m)) = (fun t => decide (t.area = m)) := by
    funext t
    simp
  rw [hfun] at h
  exact ⟨analyzeCollection_nonempty to_string p hne, neg_injective h.1, h.2⟩

theorem demo_area_le_32 : ∀ s ∈ demoProcessor.shapes, s.area ≤ 32 := by
  rw [demoProcessor_shapes]
  intro s hs
  simp only [List.mem_cons, List.mem_singleton, List.not_mem_nil, or_false] at hs
  rcases hs with rfl | rfl | rfl | rfl <;> norm_num [Shape.area, Rectangle, Circle]

theorem demo_area_ge_circle : ∀ s ∈ demoProcessor.shapes, (7.0685775 : ℚ) ≤ s.area := by
  rw [demoProcessor_shapes]
  intro s hs
  simp only [List.mem_cons, List.mem_singleton, List.not_mem_nil, or_false] at hs
  rcases hs with rfl | rfl | rfl | rfl <;> norm_num [Shape.area, Rectangle, Circle]

/-- Witness of C4 on the demo collection, whose maximum area is 32. -/
theorem analyze_largest_is_first_maximum_witness :
    demoProcessor.analyzeCollection (fun q => toString q)
        = demoProcessor.report.render (fun q => toString q)
      ∧ demoProcessor.report.maxArea = 32
      ∧ ∃ s, demoProcessor.shapes.find? (fun t => decide (t.area = 32)) = some s
          ∧ demoProcessor.report.largestShape = s.getName :=
  analyze_largest_is_first_maximum (fun q => toString q) demoProcessor 32
    ⟨Rectangle 8 4, by rw [demoProcessor_shapes]; simp,
      by norm_num [Shape.area, Rectangle]⟩
    demo_area_le_32 (by norm_num)

/-- Witness of C5 on the demo collection, whose minimum area is `3.14159 * 2.25`. -/
theorem analyze_smallest_is_first_minimum_witness :
    demoProcessor.analyzeCollection (fun q => toString q)
        = demoProcessor.report.render (fun q => toString q)
      ∧ demoProcessor.report.minArea = 7.0685775
      ∧ ∃ s, demoProcessor.shapes.find? (fun t => decide (t.area = 7.0685775)) = some s
          ∧ demoProcessor.report.smallestShape = s.getName :=
  analyze_smallest_is_first_minimum (fun q => toString q) demoProcessor 7.0685775
    ⟨Circle 1.5, by rw [demoProcessor_shapes]; simp,
      by norm_num [Shape.area, Circle]⟩
    demo_area_ge_circle
    ⟨Rectangle 5 3, by rw [demoProcessor_shapes]; simp,
      by norm_num [Shape.area, Rectangle, DBL_MAX]⟩

/-! ## The loop of analyzeCollection: totals -/

theorem foldl_loopBody_totals (shapes : List Shape) (v : LoopVars) :
    (shapes.foldl loopBody v).totalArea = v.totalArea + (shapes.map Shape.area).sum
      ∧ (shapes.foldl loopBody v).totalPerimeter
          = v.totalPerimeter + (shapes.map Shape.perimeter).sum := by
  induction shapes generalizing v with
  | nil => simp
  | cons s rest ih =>
    have hA : (loopBody v s).totalArea = v.totalArea + s.area := by
      unfold loopBody
      simp only
      split_ifs <;> rfl
    have hP : (loopBody v s).totalPerimeter = v.totalPerimeter + s.perimeter := by
      unfold loopBody
      simp only
      split_ifs <;> rfl
    rw [List.foldl_cons, (ih (loopBody v s)).1, (ih (loopBody v s)).2, hA, hP]
    simp only [List.map_cons, List.sum_cons]
    exact ⟨by ring, by ring⟩

/-- Claim C6. For every non-empty collection of `n` shapes, the values `analyzeCollection`
writes are: total count `n`, total area the sum of `area()` over the owned shapes, total
perimeter the sum of `perimeter()` over the owned shapes, and average area the total area
divided by `n`. -/
theorem analyze_totals (to_string : ℚ → String) (p : GeometryProcessor)
    (hne : p.shapes ≠ []) :
    p.analyzeCollection to_string = p.report.render to_string
      ∧ p.report.totalShapes = p.shapes.length
      ∧ p.report.totalArea = (p.shapes.map Shape.area).sum
      ∧ p.report.totalPerimeter = (p.shapes.map Shape.perimeter).sum
      ∧ p.report.averageArea = p.report.totalArea / (p.shapes.length : ℚ)
      ∧ p.report.averageArea = (p.shapes.map Shape.area).sum / (p.shapes.length : ℚ) := by
  obtain ⟨hA, hP⟩ := foldl_loopBody_totals p.shapes loopInit
  have hA2 : p.report.totalArea = (p.shapes.map Shape.area).sum := by
    show (analyzeLoop p.shapes).totalArea = _
    unfold analyzeLoop
    rw [hA]
    simp [loopInit]
  have hP2 : p.report.totalPerimeter = (p.shapes.map Shape.perimeter).sum := by
    show (analyzeLoop p.shapes).totalPerimeter = _
    unfold analyzeLoop
    rw [hP]
    simp [loopInit]
  refine ⟨analyzeCollection_nonempty to_string p hne, rfl, hA2, hP2, rfl, ?_⟩
  rw [← hA2]
  rfl

/-- Witness of C6 on the demo collection: four shapes, total area `73.703515`, total
perimeter `65.13272`. -/
theorem analyze_totals_witness :
    demoProcessor.report.totalShapes = 4
      ∧ demoProcessor.report.totalArea = 73.703515
      ∧ demoProcessor.report.totalPerimeter = 65.13272
      ∧ demoProcessor.report.averageArea = 73.703515 / 4 := by
  have hne : demoProcessor.shapes ≠ [] := by rw [demoProcessor_shapes]; simp
  obtain ⟨_, h1, h2, h3, _, h5⟩ := analyze_totals (fun q => toString q) demoProcessor hne
  rw [demoProcessor_shapes] at h1 h2 h3 h5
  refine ⟨h1, ?_, ?_, ?_⟩
  · rw [h2]; norm_num [Shape.area, Rectangle, Circle]
  · rw [h3]; norm_num [Shape.perimeter, Rectangle, Circle]
  · rw [h5]; norm_num [Shape.area, Rectangle, Circle]

/-! ## addShape and the type-count map -/

theorem findEntry_absent (key : String) (l : List (String × Int))
    (h : ∀ b ∈ l, b.1 ≠ key) : findEntry key l = none := by
  induction l with
  | nil => rfl
  | cons e rest ih =>
    obtain ⟨k, c⟩ := e
    unfold findEntry
    rw [if_neg (h (k, c) (List.mem_cons_self _ _))]
    exact ih (fun b hb => h b (List.mem_cons_of_mem _ hb))

theorem findEntry_incrEntries_self (key : String) (l : List (String × Int))
    (h : KeysAscending l) :
    findEntry key (incrEntries key l) = some ((findEntry key l).getD 0 + 1) := by
  induction l with
  | nil => simp [incrEntries, findEntry]
  | cons e rest ih =>
    obtain ⟨k, c⟩ := e
    obtain ⟨hk, hrest⟩ := List.pairwise_cons.mp h
    simp only [incrEntries]
    split_ifs with h1 h2
    · have habsent : findEntry key ((k, c) :: rest) = none := by
        apply findEntry_absent
        intro b hb
        rcases List.mem_cons.mp hb with rfl | hb
        · exact ne_of_gt h1
        · exact ne_of_gt (lt_trans h1 (hk b hb))
      rw [habsent]
      simp [findEntry]
    · have hne : k ≠ key := ne_of_lt h2
      simp only [findEntry, if_neg hne]
      exact ih hrest
    · have heq : k = key := le_antisymm (not_lt.mp h1) (not_lt.mp h2)
      simp [findEntry, heq]

theorem findEntry_incrEntries_other (key name : String) (l : List (String × Int))
    (hne : name ≠ key) : findEntry name (incrEntries key l) = findEntry name l := by
  induction l with
  | nil => simp [incrEntries, findEntry, Ne.symm hne]
  | cons e rest ih =>
    obtain ⟨k, c⟩ := e
    simp only [incrEntries]
    split_ifs with h1 h2
    · simp [findEntry, Ne.symm hne]
    · simp only [findEntry, ih]
    · have heq : k = key := le_antisymm (not_lt.mp h1) (not_lt.mp h2)
      have hk : k ≠ name := by rw [heq]; exact Ne.symm hne
      simp only [findEntry, if_neg hk]

theorem sum_incrEntries (key : String) (l : List (String × Int)) :
    ((incrEntries key l).map Prod.snd).sum = (l.map Prod.snd).sum + 1 := by
  induction l with
  | nil => simp [incrEntries]
  | cons e rest ih =>
    obtain ⟨k, c⟩ := e
    simp only [incrEntries]
    split_ifs with h1 h2
    · simp only [List.map_cons, List.sum_cons]; ring
    · simp only [List.map_cons, List.sum_cons, ih]; ring
    · simp only [List.map_cons, List.sum_cons]; ring

theorem incrEntries_pos (key : String) (l : List (String × Int))
    (h : ∀ e ∈ l, 1 ≤ e.2) : ∀ e ∈ incrEntries key l, 1 ≤ e.2 := by
  induction l with
  | nil =>
    intro e he
    simp only [incrEntries, List.mem_singleton] at he
    rw [he]
    exact le_of_eq (zero_add 1).symm
  | cons e0 rest ih =>
    obtain ⟨k, c⟩ := e0
    have hc : 1 ≤ c := h (k, c) (List.mem_cons_self _ _)
    have hrest : ∀ e ∈ rest, 1 ≤ e.2 := fun e he => h e (List.mem_cons_of_mem _ he)
    intro e he
    simp only [incrEntries] at he
    split_ifs at he with h1 h2
    · rcases List.mem_cons.mp he with rfl | he
      · exact le_of_eq (zero_add 1).symm
      · exact h e he
    · rcases List.mem_cons.mp he with rfl | he
      · exact hc
      · exact ih hrest e he
    · rcases List.mem_cons.mp he with rfl | he
      · exact le_trans hc (by simp)
      · exact hrest e he

theorem addShape_some_effect (p : GeometryProcessor) (s : Shape) :
    (p.addShape (some s)).shapes = p.shapes ++ [s]
      ∧ (p.addShape (some s)).shapeTypeCount.find s.getName
          = some ((p.shapeTypeCount.find s.getName).getD 0 + 1)
      ∧ ∀ name, name ≠ s.getName →
          (p.addShape (some s)).shapeTypeCount.find name = p.shapeTypeCount.find name :=
  ⟨rfl, findEntry_incrEntries_self s.getName p.shapeTypeCount.entries p.shapeTypeCount.ascending,
    fun name hne => findEntry_incrEntries_other s.getName name p.shapeTypeCount.entries hne⟩

/-- Claim C7. For every processor state and every non-null shape `s`, `addShape(s)` yields a
state whose shape sequence is the old one with `s` appended at the end (one shape more, every
earlier slot holding the shape it held, the new last slot holding `s`), whose type-count entry
for `s.getName()` is the old count plus one (an absent entry counting as 0), and whose
type-count entry for every other name is what it was, absent entries staying absent. -/
theorem addShape_appends_and_counts (p : GeometryProcessor) (s : Shape) :
    (p.addShape (some s)).shapes = p.shapes ++ [s]
      ∧ (p.addShape (some s)).shapes.length = p.shapes.length + 1
      ∧ (∀ i, i < p.shapes.length → (p.addShape (some s)).shapes[i]? = p.shapes[i]?)
      ∧ (p.addShape (some s)).shapes[p.shapes.length]? = some s
      ∧ (p.addShape (some s)).shapeTypeCount.find s.getName
          = some ((p.shapeTypeCount.find s.getName).getD 0 + 1)
      ∧ ∀ name, name ≠ s.getName →
          (p.addShape (some s)).shapeTypeCount.find name = p.shapeTypeCount.find name := by
  obtain ⟨hshapes, hself, hother⟩ := addShape_some_effect p s
  refine ⟨hshapes, ?_, ?_, ?_, hself, hother⟩
  · rw [hshapes]; simp
  · intro i hi
    rw [hshapes, List.getElem?_append_left hi]
  · rw [hshapes]; simp

/-- Witness of C7: adding `Circle(1)` to the processor that holds one `Rectangle(2, 3)`. -/
theorem addShape_appends_and_counts_witness :
    ((GeometryProcessor.build [some (Rectangle 2 3)]).addShape (some (Circle 1))).shapes
        = (GeometryProcessor.build [some (Rectangle 2 3)]).shapes ++ [Circle 1]
      ∧ ((GeometryProcessor.build [some (Rectangle 2 3)]).addShape
            (some (Circle 1))).shapeTypeCount.find (Circle 1).getName
          = some (((GeometryProcessor.build [some (Rectangle 2 3)]).shapeTypeCount.find
              (Circle 1).getName).getD 0 + 1)
      ∧ ((GeometryProcessor.build [some (Rectangle 2 3)]).addShape
            (some (Circle 1))).shapeTypeCount.find "Rectangle"
          = (GeometryProcessor.build [some (Rectangle 2 3)]).shapeTypeCount.find "Rectangle" :=
  ⟨(addShape_appends_and_counts (GeometryProcessor.build [some (Rectangle 2 3)]) (Circle 1)).1,
    (addShape_appends_and_counts (GeometryProcessor.build [some (Rectangle 2 3)])
      (Circle 1)).2.2.2.2.1,
    (addShape_appends_and_counts (GeometryProcessor.build [some (Rectangle 2 3)])
      (Circle 1)).2.2.2.2.2 "Rectangle" (by decide)⟩

/-- Claim C8. For every processor state, `addShape` called with a null handle leaves the state
unchanged: the shape sequence, hence the shape count, and the type-count map are the same
before and after the call. -/
theorem addShape_null_unchanged (p : GeometryProcessor) :
    p.addShape none = p
      ∧ (p.addShape none).shapes = p.shapes
      ∧ (p.addShape none).shapes.length = p.shapes.length
      ∧ (p.addShape none).shapeTypeCount = p.shapeTypeCount :=
  ⟨rfl, rfl, rfl, rfl⟩

/-! ## Reachable states keep the map consistent with the sequence -/

theorem countsConsistent_empty : CountsConsistent GeometryProcessor.empty := by
  refine ⟨fun name => ?_, fun e he => absurd he (List.not_mem_nil e), ?_⟩
  · simp [GeometryProcessor.empty, StdMap.empty, StdMap.find, findEntry]
  · simp [GeometryProcessor.empty, StdMap.empty]

theorem countsConsistent_addShape (p : GeometryProcessor) (shape : Option Shape)
    (h : CountsConsistent p) : CountsConsistent (p.addShape shape) := by
  cases shape with
  | none => exact h
  | some s =>
    obtain ⟨hcount, hpos, hsum⟩ := h
    obtain ⟨hshapes, hself, hother⟩ := addShape_some_effect p s
    refine ⟨fun name => ?_, ?_, ?_⟩
    · rw [hshapes, List.countP_append, List.countP_cons, List.countP_nil]
      by_cases hn : name = s.getName
      · subst hn
        rw [hself, hcount]
        simp
      · rw [hother name hn, hcount]
        have : ¬ s.getName = name := fun h => hn h.symm
        simp [this]
    · exact incrEntries_pos s.getName p.shapeTypeCount.entries hpos
    · show ((incrEntries s.getName p.shapeTypeCount.entries).map Prod.snd).sum
        = (((p.shapes ++ [s]).length : Nat) : Int)
      rw [sum_incrEntries, hsum]
      simp

theorem countsConsistent_foldl (calls : List (Option Shape)) (p : GeometryProcessor)
    (h : CountsConsistent p) :
    CountsConsistent (calls.foldl GeometryProcessor.addShape p) := by
  induction calls generalizing p with
  | nil => exact h
  | cons c rest ih =>
    rw [List.foldl_cons]
    exact ih _ (countsConsistent_addShape p c h)

/-- Claim C9. In every state reached from the empty processor by a sequence of `addShape` calls,
with null or non-null handles, the type-count map is consistent with the shape sequence: for
every name the mapped count (0 when the name is absent) is the number of owned shapes whose
`getName()` is that name, every entry present has a count of at least 1, and the counts add up
to the number of owned shapes. -/
theorem build_counts_consistent (calls : List (Option Shape)) :
    (∀ name : String, ((GeometryProcessor.build calls).shapeTypeCount.find name).getD 0
        = (((GeometryProcessor.build calls).shapes.countP
            (fun s => decide (s.getName = name)) : Nat) : Int))
      ∧ (∀ e ∈ (GeometryProcessor.build calls).shapeTypeCount.entries, 1 ≤ e.2)
      ∧ ((GeometryProcessor.build calls).shapeTypeCount.entries.map Prod.snd).sum
          = (((GeometryProcessor.build calls).shapes.length : Nat) : Int) :=
  countsConsistent_foldl calls GeometryProcessor.empty countsConsistent_empty

/-! ## The two shapes of the result of analyzeCollection -/

theorem foldl_append_lines (g : String × Int × ℚ → String) (l : List (String × Int × ℚ))
    (start body : String) :
    ∃ rest, l.foldl (fun analysis e => analysis ++ g e) (start ++ body) = start ++ rest := by
  induction l generalizing body with
  | nil => exact ⟨body, rfl⟩
  | cons e tail ih =>
    rw [List.foldl_cons, String.append_assoc]
    exact ih (body ++ g e)

theorem render_starts_with_header (to_string : ℚ → String) (r : Report) :
    ∃ rest, r.render to_string = header ++ rest :=
  foldl_append_lines (distributionLine to_string) r.distribution header (r.summary to_string)

theorem header_append_ne_noShapes (rest : String) : header ++ rest ≠ noShapes := by
  intro h
  have hdata := congrArg String.data h
  rw [String.data_append] at hdata
  simp [header, noShapes] at hdata

/-- Claim C10. On a processor with no owned shapes `analyzeCollection` returns exactly the string
"No shapes to analyze"; on every processor with at least one owned shape the result is a
different string, which begins with the header line "=== GEOMETRY ANALYSIS ===". -/
theorem analyzeCollection_empty_or_header (to_string : ℚ → String) :
    (∀ p : GeometryProcessor, p.shapes = [] →
        p.analyzeCollection to_string = "No shapes to analyze")
      ∧ (∀ p : GeometryProcessor, p.shapes ≠ [] →
          p.analyzeCollection to_string ≠ "No shapes to analyze"
            ∧ ∃ rest, p.analyzeCollection to_string
                = "=== GEOMETRY ANALYSIS ===\n" ++ rest) := by
  constructor
  · intro p hp
    unfold GeometryProcessor.analyzeCollection
    rw [hp]
    rfl
  · intro p hp
    rw [analyzeCollection_nonempty to_string p hp]
    obtain ⟨rest, hrest⟩ := render_starts_with_header to_string p.report
    exact ⟨by rw [hrest]; exact header_append_ne_noShapes rest, rest, hrest⟩

/-- Witness of C10: the empty processor and the demo collection. -/
theorem analyzeCollection_empty_or_header_witness :
    GeometryProcessor.empty.analyzeCollection (fun q => toString q) = "No shapes to analyze"
      ∧ demoProcessor.analyzeCollection (fun q => toString q) ≠ "No shapes to analyze"
      ∧ ∃ rest, demoProcessor.analyzeCollection (fun q => toString q)
          = "=== GEOMETRY ANALYSIS ===\n" ++ rest :=
  ⟨(analyzeCollection_empty_or_header (fun q => toString q)).1 GeometryProcessor.empty rfl,
    (analyzeCollection_empty_or_header (fun q => toString q)).2 demoProcessor
      (by rw [demoProcessor_shapes]; simp)⟩

/-! ## The distribution section -/

theorem mem_of_findEntry (key : String) (l : List (String × Int)) (c : Int)
    (h : findEntry key l = some c) : (key, c) ∈ l := by
  induction l with
  | nil => simp [findEntry] at h
  | cons e rest ih =>
    obtain ⟨k, c0⟩ := e
    unfold findEntry at h
    split_ifs at h with hk
    · have hc : c0 = c := Option.some.inj h
      rw [hk, hc]
      exact List.mem_cons_self _ _
    · exact List.mem_cons_of_mem _ (ih h)

theorem findEntry_of_mem (l : List (String × Int)) (h : KeysAscending l)
    (e : String × Int) (he : e ∈ l) : findEntry e.1 l = some e.2 := by
  induction l with
  | nil => exact absurd he (List.not_mem_nil e)
  | cons e0 rest ih =>
    obtain ⟨k, c⟩ := e0
    obtain ⟨hk, hrest⟩ := List.pairwise_cons.mp h
    unfold findEntry
    rcases List.mem_cons.mp he with rfl | he
    · rw [if_pos rfl]
    · rw [if_neg (ne_of_lt (hk e he))]
      exact ih hrest he

theorem entry_count_of_consistent (p : GeometryProcessor) (h : CountsConsistent p)
    (e : String × Int) (he : e ∈ p.shapeTypeCount.entries) :
    e.2 = ((p.shapes.countP (fun s => decide (s.getName = e.1)) : Nat) : Int) := by
  have hfind := findEntry_of_mem p.shapeTypeCount.entries p.shapeTypeCount.ascending e he
  have hcount := h.1 e.1
  unfold StdMap.find at hcount
  rw [hfind] at hcount
  exact hcount

theorem key_iff_of_consistent (p : GeometryProcessor) (h : CountsConsistent p)
    (name : String) :
    name ∈ p.shapeTypeCount.entries.map Prod.fst ↔ ∃ s ∈ p.shapes, s.getName = name := by
  constructor
  · intro hmem
    obtain ⟨e, he, hname⟩ := List.mem_map.mp hmem
    have hc := entry_count_of_consistent p h e he
    have hpos := h.2.1 e he
    rw [hc] at hpos
    have hpos2 : 0 < p.shapes.countP (fun s => decide (s.getName = e.1)) := by
      exact_mod_cast hpos
    obtain ⟨s, hs, hsn⟩ := List.countP_pos_iff.mp hpos2
    exact ⟨s, hs, by rw [← hname]; simpa using hsn⟩
  · rintro ⟨s, hs, hsn⟩
    have hpos : 0 < p.shapes.countP (fun t => decide (t.getName = name)) :=
      List.countP_pos_iff.mpr ⟨s, hs, by simpa using hsn⟩
    have hcount := h.1 name
    cases hfind : p.shapeTypeCount.find name with
    | none =>
      rw [hfind] at hcount
      simp only [Option.getD_none] at hcount
      have hlt : (0 : Int)
          < ((p.shapes.countP (fun t => decide (t.getName = name)) : Nat) : Int) := by
        exact_mod_cast hpos
      rw [← hcount] at hlt
      exact absurd hlt (lt_irrefl 0)
    | some c =>
      exact List.mem_map.mpr ⟨(name, c), mem_of_findEntry name _ c hfind, rfl⟩

theorem foldl_lines_from_start (g : String × Int × ℚ → String)
    (l : List (String × Int × ℚ)) (start : String) :
    l.foldl (fun analysis e => analysis ++ g e) start
      = start ++ l.foldl (fun r e => r ++ g e) "" := by
  induction l generalizing start with
  | nil => simp
  | cons e rest ih =>
    rw [List.foldl_cons, List.foldl_cons, ih (start ++ g e), ih ("" ++ g e),
      String.append_assoc]
    simp

theorem foldl_lines_eq_join (g : String × Int × ℚ → String) (l : List (String × Int × ℚ))
    (start : String) :
    l.foldl (fun analysis e => analysis ++ g e) start = start ++ String.join (l.map g) := by
  unfold String.join
  rw [List.foldl_map]
  exact foldl_lines_from_start g l start

theorem demoProcessor_entries :
    demoProcessor.shapeTypeCount.entries = [("Circle", 2), ("Rectangle", 2)] := by
  have h1 : "Circle" < "Rectangle" := by simp; decide
  have h2 : ¬ "Rectangle" < "Circle" := by simp; decide
  simp [demoProcessor, GeometryProcessor.build, GeometryProcessor.addShape,
    GeometryProcessor.empty, StdMap.empty, StdMap.incr, incrEntries, Shape.getName,
    Rectangle, Circle, h1, h2]

/-- Claim C11. For every non-empty processor reached from the empty one by `addShape` calls,
the distribution section of `analyzeCollection` is made of one line per entry of the list
`distribution`, in list order; the names of the entries are strictly ascending in the order of
strings (so no name occurs twice); a name has an entry if and only if it is the name of an
owned shape; and each entry carries the number of owned shapes of that name and the
percentage `count / total * 100`, `total` being the number of owned shapes. On the demo
collection the entries are Circle with count 2 and 50 percent and Rectangle with count 2 and
50 percent, in this order. -/
theorem distribution_one_entry_per_name (to_string : ℚ → String)
    (calls : List (Option Shape)) (hne : (GeometryProcessor.build calls).shapes ≠ []) :
    (GeometryProcessor.build calls).analyzeCollection to_string
        = header ++ (GeometryProcessor.build calls).report.summary to_string
          ++ String.join ((GeometryProcessor.build calls).report.distribution.map
              (distributionLine to_string))
      ∧ ((GeometryProcessor.build calls).report.distribution.map (fun e => e.1)).Pairwise
          (fun a b => a < b)
      ∧ (∀ name : String,
          name ∈ (GeometryProcessor.build calls).report.distribution.map (fun e => e.1)
            ↔ ∃ s ∈ (GeometryProcessor.build calls).shapes, s.getName = name)
      ∧ (∀ e ∈ (GeometryProcessor.build calls).report.distribution,
          e.2.1 = (((GeometryProcessor.build calls).shapes.countP
              (fun s => decide (s.getName = e.1)) : Nat) : Int)
            ∧ e.2.2 = (e.2.1 : ℚ)
                / (((GeometryProcessor.build calls).shapes.length : Nat) : ℚ) * 100)
      ∧ demoProcessor.report.distribution = [("Circle", 2, 50), ("Rectangle", 2, 50)] := by
  have hcons : CountsConsistent (GeometryProcessor.build calls) :=
    countsConsistent_foldl calls GeometryProcessor.empty countsConsistent_empty
  have hkeys : (GeometryProcessor.build calls).report.distribution.map (fun e => e.1)
      = (GeometryProcessor.build calls).shapeTypeCount.entries.map Prod.fst := by
    simp [GeometryProcessor.report, List.map_map, Function.comp_def]
  refine ⟨?_, ?_, ?_, ?_, ?_⟩
  · rw [analyzeCollection_nonempty to_string _ hne]
    exact foldl_lines_eq_join (distributionLine to_string) _ _
  · rw [hkeys]
    exact List.pairwise_map.mpr (GeometryProcessor.build calls).shapeTypeCount.ascending
  · intro name
    rw [hkeys]
    exact key_iff_of_consistent _ hcons name
  · intro e he
    obtain ⟨e0, he0, rfl⟩ := List.mem_map.mp he
    exact ⟨entry_count_of_consistent _ hcons e0 he0, rfl⟩
  · show demoProcessor.shapeTypeCount.entries.map _ = _
    rw [demoProcessor_entries, demoProcessor_shapes]
    norm_num

/-- Witness of C11 on the processor holding one `Circle(1)`: its distribution section has the
single entry Circle with count 1 and 100 percent. -/
theorem distribution_one_entry_per_name_witness :
    (GeometryProcessor.build [some (Circle 1)]).shapes ≠ []
      ∧ ((GeometryProcessor.build [some (Circle 1)]).report.distribution.map
          (fun e => e.1)).Pairwise (fun a b => a < b)
      ∧ (∀ e ∈ (GeometryProcessor.build [some (Circle 1)]).report.distribution,
          e.2.1 = (((GeometryProcessor.build [some (Circle 1)]).shapes.countP
              (fun s => decide (s.getName = e.1)) : Nat) : Int)
            ∧ e.2.2 = (e.2.1 : ℚ)
                / (((GeometryProcessor.build [some (Circle 1)]).shapes.length : Nat) : ℚ)
                  * 100) :=
  have hne : (GeometryProcessor.build [some (Circle 1)]).shapes ≠ [] := by
    simp [GeometryProcessor.build, GeometryProcessor.addShape, GeometryProcessor.empty]
  ⟨hne,
    (distribution_one_entry_per_name (fun q => toString q) [some (Circle 1)] hne).2.1,
    (distribution_one_entry_per_name (fun q => toString q) [some (Circle 1)] hne).2.2.2.1⟩

/-! ## The report on the demo collection -/

theorem demoProcessor_loop :
    analyzeLoop demoProcessor.shapes
      = { totalArea := 73.703515, totalPerimeter := 65.13272, maxArea := 32,
          minArea := 7.0685775, largestShape := "Rectangle", smallestShape := "Circle" } := by
  rw [demoProcessor_shapes]
  norm_num [analyzeLoop, loopBody, loopInit, Shape.area, Shape.perimeter, Shape.getName,
    Rectangle, Circle, DBL_MAX]

/-- Claim C12. On the processor built by adding `Rectangle(5,3)`, `Circle(2.5)`,
`Rectangle(8,4)`, `Circle(1.5)` in this order, `analyzeCollection` computes total shapes 4,
total area `15 + 3.14159*6.25 + 32 + 3.14159*2.25 = 73.703515`, largest shape "Rectangle" with
area 32, and smallest shape "Circle" with area `3.14159*2.25 = 7.0685775`; these are the
values its text is rendered from. -/
theorem demo_report_values (to_string : ℚ → String) :
    demoProcessor.analyzeCollection to_string = demoProcessor.report.render to_string
      ∧ demoProcessor.report.totalShapes = 4
      ∧ demoProcessor.report.totalArea = 15 + 3.14159 * 6.25 + 32 + 3.14159 * 2.25
      ∧ demoProcessor.report.totalArea = 73.703515
      ∧ demoProcessor.report.largestShape = "Rectangle"
      ∧ demoProcessor.report.maxArea = 32
      ∧ demoProcessor.report.smallestShape = "Circle"
      ∧ demoProcessor.report.minArea = 3.14159 * 2.25
      ∧ demoProcessor.report.minArea = 7.0685775 := by
  have hne : demoProcessor.shapes ≠ [] := by rw [demoProcessor_shapes]; simp
  have hloop := demoProcessor_loop
  have hlen : demoProcessor.shapes.length = 4 := by rw [demoProcessor_shapes]; rfl
  refine ⟨analyzeCollection_nonempty to_string demoProcessor hne, hlen, ?_, ?_, ?_, ?_, ?_,
    ?_, ?_⟩
  · show (analyzeLoop demoProcessor.shapes).totalArea = _
    rw [hloop]; norm_num
  · show (analyzeLoop demoProcessor.shapes).totalArea = _
    rw [hloop]
  · show (analyzeLoop demoProcessor.shapes).largestShape = _
    rw [hloop]
  · show (analyzeLoop demoProcessor.shapes).maxArea = _
    rw [hloop]
  · show (analyzeLoop demoProcessor.shapes).smallestShape = _
    rw [hloop]
  · show (analyzeLoop demoProcessor.shapes).minArea = _
    rw [hloop]; norm_num
  · show (analyzeLoop demoProcessor.shapes).minArea = _
    rw [hloop]

/-! ## The formulas of the two concrete shapes -/

/-- Claim C13. For every width `w` and height `h`, `Rectangle(w,h).area()` is `w*h` and
`Rectangle(w,h).perimeter()` is `2*(w+h)`; for every radius `r`, `Circle(r).area()` is
`3.14159*r*r` and `Circle(r).perimeter()` is `2*3.14159*r`, where the constant is exactly
`314159/100000`, which is not the number pi (the area of the unit circle in the code is
strictly below pi); `getName()` returns "Rectangle" and "Circle" respectively. -/
theorem shape_formulas (w h r : ℚ) :
    (Rectangle w h).area = w * h
      ∧ (Rectangle w h).perimeter = 2 * (w + h)
      ∧ (Circle r).area = 3.14159 * r * r
      ∧ (Circle r).perimeter = 2 * 3.14159 * r
      ∧ (Circle r).area = 314159 / 100000 * r * r
      ∧ (Circle r).perimeter = 2 * (314159 / 100000) * r
      ∧ (((Circle 1).area : ℚ) : ℝ) < Real.pi
      ∧ (Rectangle w h).getName = "Rectangle"
      ∧ (Circle r).getName = "Circle" := by
  refine ⟨rfl, rfl, rfl, rfl, ?_, ?_, ?_, rfl, rfl⟩
  · norm_num [Shape.area, Circle]
  · norm_num [Shape.perimeter, Circle]
  · have harea : (Circle 1).area = 314159 / 100000 := by norm_num [Shape.area, Circle]
    rw [harea]
    have hpi := Real.pi_gt_d6
    have hlt : (((314159 / 100000 : ℚ)) : ℝ) < 3.141592 := by norm_num
    exact lt_trans hlt hpi

/-- Claim C14. For every rectangle built with width and height at least 0 and every circle
built with radius at least 0, `area()` and `perimeter()` are at least 0. -/
theorem area_perimeter_nonneg (w h r : ℚ) (hw : 0 ≤ w) (hh : 0 ≤ h) (hr : 0 ≤ r) :
    0 ≤ (Rectangle w h).area
      ∧ 0 ≤ (Rectangle w h).perimeter
      ∧ 0 ≤ (Circle r).area
      ∧ 0 ≤ (Circle r).perimeter := by
  refine ⟨?_, ?_, ?_, ?_⟩
  · show 0 ≤ w * h
    exact mul_nonneg hw hh
  · show 0 ≤ 2 * (w + h)
    exact mul_nonneg (by norm_num) (add_nonneg hw hh)
  · show 0 ≤ 3.14159 * r * r
    exact mul_nonneg (mul_nonneg (by norm_num) hr) hr
  · show 0 ≤ 2 * 3.14159 * r
    exact mul_nonneg (by norm_num) hr

/-- Witness of C14 on `Rectangle(5, 3)` and `Circle(2.5)`. -/
theorem area_perimeter_nonneg_witness :
    0 ≤ (Rectangle 5 3).area
      ∧ 0 ≤ (Rectangle 5 3).perimeter
      ∧ 0 ≤ (Circle 2.5).area
      ∧ 0 ≤ (Circle 2.5).perimeter :=
  area_perimeter_nonneg 5 3 2.5 (by norm_num) (by norm_num) (by norm_num)

/-! ## Degenerate range queries -/

theorem stdSort_nil_of_filter (p : GeometryProcessor) (minArea maxArea : ℚ)
    (h : filterByArea p.shapes minArea maxArea = []) :
    p.getShapesByAreaRange minArea maxArea = [] := by
  unfold GeometryProcessor.getShapesByAreaRange
  rw [h]
  rfl

/-- Claim C15. For every processor state, the empty one included, and every `minArea`,
`maxArea` with `minArea > maxArea`, `getShapesByAreaRange(minArea, maxArea)` returns the empty
list; and on a processor without shapes it returns the empty list for every `minArea`,
`maxArea`. -/
theorem getShapesByAreaRange_empty_results :
    (∀ (p : GeometryProcessor) (minArea maxArea : ℚ), minArea > maxArea →
        p.getShapesByAreaRange minArea maxArea = [])
      ∧ (∀ (p : GeometryProcessor), p.shapes = [] → ∀ minArea maxArea : ℚ,
          p.getShapesByAreaRange minArea maxArea = []) := by
  constructor
  · intro p minArea maxArea hgt
    apply stdSort_nil_of_filter
    unfold filterByArea
    rw [List.filter_eq_nil_iff]
    intro a _ ha
    simp only [ge_iff_le, Bool.and_eq_true, decide_eq_true_eq] at ha
    exact absurd (le_trans ha.1 ha.2) (not_le.mpr hgt)
  · intro p hp minArea maxArea
    apply stdSort_nil_of_filter
    unfold filterByArea
    rw [hp]
    rfl

/-- Witness of C15: the demo collection queried with the bounds 20 and 10, and the empty
processor queried with the bounds 10 and 20. -/
theorem getShapesByAreaRange_empty_results_witness :
    demoProcessor.getShapesByAreaRange 20 10 = []
      ∧ GeometryProcessor.empty.getShapesByAreaRange 10 20 = [] :=
  ⟨getShapesByAreaRange_empty_results.1 demoProcessor 20 10 (by norm_num),
    getShapesByAreaRange_empty_results.2 GeometryProcessor.empty rfl 10 20⟩

/-! ## The two queries leave the processor as it is -/

theorem forIn_pure_step {α β : Type} (f : β → α → β) (l : List α) (b : β) :
    (forIn l b (fun a r => pure (ForInStep.yield (f r a))) : Member β)
      = pure (l.foldl f b) := by
  induction l generalizing b with
  | nil => rfl
  | cons a rest ih =>
    rw [List.forIn_cons, pure_bind]
    exact ih _

theorem forIn_get_step {α β : Type} (h : GeometryProcessor → β → α → β) (l : List α)
    (b : β) :
    (forIn l b (fun a r => get >>= fun self => pure (ForInStep.yield (h self r a)))
        : Member β)
      = (get >>= fun self => pure (l.foldl (h self) b)) := by
  induction l generalizing b with
  | nil => rfl
  | cons a rest ih =>
    rw [List.forIn_cons]
    funext self
    exact congrFun (ih (h self b a)) self

theorem forIn_push_step {α : Type} (c : α → Bool) (l : List α) (acc : List α) :
    (forIn l acc (fun a r =>
        if c a = true then pure (ForInStep.yield (r ++ [a])) else pure (ForInStep.yield r))
        : Member (List α))
      = pure (acc ++ l.filter c) := by
  induction l generalizing acc with
  | nil => simp
  | cons a rest ih =>
    rw [List.forIn_cons]
    by_cases hc : c a = true
    · rw [if_pos hc, pure_bind]
      show forIn rest (acc ++ [a]) _ = _
      rw [ih, List.filter_cons_of_pos hc, List.append_assoc]
      rfl
    · rw [if_neg hc, pure_bind]
      show forIn rest acc _ = _
      rw [ih, List.filter_cons_of_neg hc]

/-- The program `Member.addShape` computes `addShape`. -/
theorem member_addShape_eq (shape : Option Shape) (p : GeometryProcessor) :
    (Member.addShape shape).runOn p = ((), p.addShape shape) := by
  cases shape <;> rfl

/-- The program `Member.analyzeCollection` returns the text `analyzeCollection` gives and
leaves the object it ran on. -/
theorem member_analyzeCollection_eq (to_string : ℚ → String) (p : GeometryProcessor) :
    (Member.analyzeCollection to_string).runOn p = (p.analyzeCollection to_string, p) := by
  unfold Member.analyzeCollection GeometryProcessor.analyzeCollection
  simp only [pure_bind, forIn_pure_step, forIn_get_step]
  by_cases hempty : p.shapes.isEmpty = true
  · simp only [Member.runOn, StateT.run_bind, StateT.run_get, pure_bind, hempty, if_true,
      StateT.run_pure, Id.run, noShapes]
    rfl
  · simp only [Member.runOn, StateT.run_bind, StateT.run_get, pure_bind, hempty,
      Bool.false_eq_true, if_false, StateT.run_pure, Id.run, Report.render, Report.summary,
      GeometryProcessor.report, analyzeLoop, List.foldl_map, distributionLine, header,
      String.append_assoc]
    rfl

/-- The program `Member.getShapesByAreaRange` returns the list `getShapesByAreaRange` gives
and leaves the object it ran on. -/
theorem member_getShapesByAreaRange_eq (minArea maxArea : ℚ) (p : GeometryProcessor) :
    (Member.getShapesByAreaRange minArea maxArea).runOn p
      = (p.getShapesByAreaRange minArea maxArea, p) := by
  unfold Member.getShapesByAreaRange GeometryProcessor.getShapesByAreaRange filterByArea
  simp only [pure_bind, forIn_push_step, List.nil_append]
  rfl

theorem call_query (to_string : ℚ → String) (p : GeometryProcessor) (c : Call)
    (hc : c.isQuery = true) : (p.call to_string c).1 = p := by
  cases c with
  | addShape shape => simp [Call.isQuery] at hc
  | analyzeCollection =>
    show ((Member.analyzeCollection to_string).runOn p).2 = p
    rw [member_analyzeCollection_eq]
  | getShapesByAreaRange minArea maxArea =>
    show ((Member.getShapesByAreaRange minArea maxArea).runOn p).2 = p
    rw [member_getShapesByAreaRange_eq]

theorem run_append (to_string : ℚ → String) (p : GeometryProcessor) (xs ys : List Call) :
    GeometryProcessor.run to_string p (xs ++ ys)
      = ((GeometryProcessor.run to_string (GeometryProcessor.run to_string p xs).1 ys).1,
          (GeometryProcessor.run to_string p xs).2
            ++ (GeometryProcessor.run to_string (GeometryProcessor.run to_string p xs).1 ys).2)
    := by
  induction xs generalizing p with
  | nil => rfl
  | cons c rest ih =>
    rw [List.cons_append]
    simp only [GeometryProcessor.run, ih, List.cons_append]

theorem run_queries_state (to_string : ℚ → String) (p : GeometryProcessor)
    (queries : List Call) (hq : ∀ c ∈ queries, c.isQuery = true) :
    (GeometryProcessor.run to_string p queries).1 = p := by
  induction queries generalizing p with
  | nil => rfl
  | cons c rest ih =>
    simp only [GeometryProcessor.run]
    rw [call_query to_string p c (hq c (List.mem_cons_self _ _))]
    exact ih p (fun d hd => hq d (List.mem_cons_of_mem _ hd))

/-- Claim C16. `analyzeCollection` and `getShapesByAreaRange` are read-only: run on any
processor state, the body of either leaves an object with the same shape sequence and the same
type-count map (while the body of `addShape` run with a shape leaves a longer sequence), and
returns what the functions `analyzeCollection` and `getShapesByAreaRange` of the sections above
give; so when `analyzeCollection` is called, then any queries (`getShapesByAreaRange` with
any bounds, or `analyzeCollection` again) but no `addShape`, then `analyzeCollection` once
more, the processor ends in the state it started in and the first and the last call return the same
text. -/
theorem queries_are_read_only (to_string : ℚ → String) (p : GeometryProcessor) :
    ((Member.analyzeCollection to_string).runOn p).2 = p
      ∧ (∀ minArea maxArea : ℚ,
          ((Member.getShapesByAreaRange minArea maxArea).runOn p).2 = p)
      ∧ ((Member.analyzeCollection to_string).runOn p).2.shapes = p.shapes
      ∧ ((Member.analyzeCollection to_string).runOn p).2.shapeTypeCount = p.shapeTypeCount
      ∧ (∀ minArea maxArea : ℚ,
          ((Member.getShapesByAreaRange minArea maxArea).runOn p).2.shapes = p.shapes
            ∧ ((Member.getShapesByAreaRange minArea maxArea).runOn p).2.shapeTypeCount
                = p.shapeTypeCount)
      ∧ (∀ s : Shape, ((Member.addShape (some s)).runOn p).2.shapes = p.shapes ++ [s])
      ∧ ((Member.analyzeCollection to_string).runOn p).1 = p.analyzeCollection to_string
      ∧ (∀ minArea maxArea : ℚ,
          ((Member.getShapesByAreaRange minArea maxArea).runOn p).1
            = p.getShapesByAreaRange minArea maxArea)
      ∧ ∀ queries : List Call, (∀ c ∈ queries, c.isQuery = true) →
          (GeometryProcessor.run to_string p
              (Call.analyzeCollection :: (queries ++ [Call.analyzeCollection]))).1 = p
            ∧ (GeometryProcessor.run to_string p
                (Call.analyzeCollection :: (queries ++ [Call.analyzeCollection]))).2.head?
                = some (Output.text ((Member.analyzeCollection to_string).runOn p).1)
            ∧ (GeometryProcessor.run to_string p
                (Call.analyzeCollection :: (queries ++ [Call.analyzeCollection]))).2.getLast?
                = some (Output.text ((Member.analyzeCollection to_string).runOn p).1) := by
  have hA : ((Member.analyzeCollection to_string).runOn p).2 = p := by
    rw [member_analyzeCollection_eq]
  have hR : ∀ minArea maxArea : ℚ,
      ((Member.getShapesByAreaRange minArea maxArea).runOn p).2 = p := by
    intro minArea maxArea
    rw [member_getShapesByAreaRange_eq]
  refine ⟨hA, hR, by rw [hA], by rw [hA], fun a b => by rw [hR a b]; exact ⟨rfl, rfl⟩,
    fun s => by rw [member_addShape_eq]; rfl,
    by rw [member_analyzeCollection_eq],
    fun a b => by rw [member_getShapesByAreaRange_eq], ?_⟩
  intro queries hq
  have hstate := run_queries_state to_string p queries hq
  have hrun : GeometryProcessor.run to_string p
      (Call.analyzeCollection :: (queries ++ [Call.analyzeCollection]))
      = (p, Output.text ((Member.analyzeCollection to_string).runOn p).1
          :: ((GeometryProcessor.run to_string p queries).2
              ++ [Output.text ((Member.analyzeCollection to_string).runOn p).1])) := by
    simp only [GeometryProcessor.run, GeometryProcessor.call, run_append, hstate, hA]
  rw [hrun]
  refine ⟨rfl, rfl, ?_⟩
  rw [← List.cons_append]
  exact List.getLast?_concat _

/-- Witness of C16 on the demo collection, with the two range queries `(10, 20)` and
`(0, 100)` between the two calls of `analyzeCollection`. -/
theorem queries_are_read_only_witness :
    (GeometryProcessor.run (fun q => toString q) demoProcessor
        [Call.analyzeCollection, Call.getShapesByAreaRange 10 20,
          Call.getShapesByAreaRange 0 100, Call.analyzeCollection]).1 = demoProcessor
      ∧ (GeometryProcessor.run (fun q => toString q) demoProcessor
          [Call.analyzeCollection, Call.getShapesByAreaRange 10 20,
            Call.getShapesByAreaRange 0 100, Call.analyzeCollection]).2.head?
          = some (Output.text
              ((Member.analyzeCollection (fun q => toString q)).runOn demoProcessor).1)
      ∧ (GeometryProcessor.run (fun q => toString q) demoProcessor
          [Call.analyzeCollection, Call.getShapesByAreaRange 10 20,
            Call.getShapesByAreaRange 0 100, Call.analyzeCollection]).2.getLast?
          = some (Output.text
              ((Member.analyzeCollection (fun q => toString q)).runOn demoProcessor).1) :=
  (queries_are_read_only (fun q => toString q) demoProcessor).2.2.2.2.2.2.2.2
    [Call.getShapesByAreaRange 10 20, Call.getShapesByAreaRange 0 100]
    (by
      intro c hc
      simp only [List.mem_cons, List.mem_singleton, List.not_mem_nil, or_false] at hc
      rcases hc with rfl | rfl <;> rfl)

/-! ## The largest shape when no area is positive -/

theorem foldr_max_zero (l : List ℚ) :
    0 ≤ l.foldr max 0 ∧ (∀ x ∈ l, x ≤ l.foldr max 0)
      ∧ (l.foldr max 0 = 0 ∨ l.foldr max 0 ∈ l) := by
  induction l with
  | nil => exact ⟨le_refl 0, fun x hx => absurd hx (List.not_mem_nil x), Or.inl rfl⟩
  | cons a rest ih =>
    obtain ⟨h0, hall, hmem⟩ := ih
    rw [List.foldr_cons]
    refine ⟨le_trans h0 (le_max_right _ _), ?_, ?_⟩
    · intro x hx
      rcases List.mem_cons.mp hx with rfl | hx
      · exact le_max_left _ _
      · exact le_trans (hall x hx) (le_max_right _ _)
    · rcases max_choice a (rest.foldr max 0) with hm | hm
      · right; rw [hm]; exact List.mem_cons_self _ _
      · rw [hm]
        rcases hmem with h | h
        · left; exact h
        · right; exact List.mem_cons_of_mem _ h

/-- Claim C17. For every non-empty collection, areas that are zero or negative included, in
which every shape has a non-empty name (as every `Rectangle` and every `Circle` has), the
largest-shape area reported by `analyzeCollection` is the maximum of 0 and all the shape
areas, and the reported largest-shape name is the empty string if and only if no owned shape
has a strictly positive area; in particular, when every shape has a negative area the reported
largest area is 0, which is the area of no owned shape. -/
theorem largest_is_maximum_with_zero (to_string : ℚ → String) (p : GeometryProcessor)
    (hne : p.shapes ≠ []) (hnames : ∀ s ∈ p.shapes, s.getName ≠ "") :
    p.analyzeCollection to_string = p.report.render to_string
      ∧ p.report.maxArea = (p.shapes.map Shape.area).foldr max 0
      ∧ (p.report.largestShape = "" ↔ ∀ s ∈ p.shapes, ¬ 0 < s.area)
      ∧ ((∀ s ∈ p.shapes, s.area < 0) →
          p.report.maxArea = 0 ∧ ∀ s ∈ p.shapes, s.area ≠ p.report.maxArea) := by
  have hrep := report_max p
  have hbounds := track_bounds Shape.area p.shapes (0, "")
  rw [← hrep] at hbounds
  obtain ⟨hge0, hub⟩ := hbounds
  obtain ⟨f0, fall, fmem⟩ := foldr_max_zero (p.shapes.map Shape.area)
  have fall2 : ∀ s ∈ p.shapes, s.area ≤ (p.shapes.map Shape.area).foldr max 0 :=
    fun s hs => fall s.area (List.mem_map.mpr ⟨s, hs, rfl⟩)
  refine ⟨analyzeCollection_nonempty to_string p hne, ?_⟩
  rcases track_origin Shape.area p.shapes (0, "") with
    ⟨heq, hall⟩ | ⟨pre, s, post, hsplit, heq, _, hlt⟩
  · rw [← hrep] at heq
    have hmax : p.report.maxArea = 0 := congrArg Prod.fst heq
    have hname : p.report.largestShape = "" := congrArg Prod.snd heq
    refine ⟨?_, ?_, ?_⟩
    · rw [hmax]
      rcases fmem with h | h
      · exact h.symm
      · obtain ⟨t, ht, hta⟩ := List.mem_map.mp h
        exact le_antisymm f0 (by rw [← hta]; exact hall t ht)
    · exact ⟨fun _ t ht => not_lt.mpr (hall t ht), fun _ => hname⟩
    · intro hneg
      refine ⟨hmax, fun t ht => ?_⟩
      rw [hmax]
      exact ne_of_lt (hneg t ht)
  · rw [← hrep] at heq
    have hmax : p.report.maxArea = s.area := congrArg Prod.fst heq
    have hname : p.report.largestShape = s.getName := congrArg Prod.snd heq
    have hs : s ∈ p.shapes := by rw [hsplit]; simp
    have hpos : 0 < s.area := hlt
    refine ⟨?_, ?_, ?_⟩
    · rw [hmax]
      apply le_antisymm (fall2 s hs)
      rcases fmem with h | h
      · rw [h]; exact le_of_lt hpos
      · obtain ⟨t, ht, hta⟩ := List.mem_map.mp h
        rw [← hta, ← hmax]
        exact hub t ht
    · constructor
      · intro hempty
        rw [hname] at hempty
        exact absurd hempty (hnames s hs)
      · intro hnone
        exact absurd hpos (hnone s hs)
    · intro hneg
      exact absurd hpos (not_lt.mpr (le_of_lt (hneg s hs)))

/-- Witness of C17 on the processor holding `Rectangle(-1, 2)`, of area -2, and `Circle(0)`,
of area 0. -/
theorem largest_is_maximum_with_zero_witness :
    (GeometryProcessor.build [some (Rectangle (-1) 2), some (Circle 0)]).report.maxArea
        = ((GeometryProcessor.build [some (Rectangle (-1) 2), some (Circle 0)]).shapes.map
            Shape.area).foldr max 0
      ∧ ((GeometryProcessor.build
            [some (Rectangle (-1) 2), some (Circle 0)]).report.largestShape = ""
          ↔ ∀ s ∈ (GeometryProcessor.build [some (Rectangle (-1) 2), some (Circle 0)]).shapes,
              ¬ 0 < s.area) := by
  have hshapes : (GeometryProcessor.build [some (Rectangle (-1) 2), some (Circle 0)]).shapes
      = [Rectangle (-1) 2, Circle 0] := by
    simp [GeometryProcessor.build, GeometryProcessor.addShape, GeometryProcessor.empty]
  have h := largest_is_maximum_with_zero (fun q => toString q)
    (GeometryProcessor.build [some (Rectangle (-1) 2), some (Circle 0)])
    (by rw [hshapes]; simp)
    (by
      rw [hshapes]
      intro s hs
      simp only [List.mem_cons, List.mem_singleton, List.not_mem_nil, or_false] at hs
      rcases hs with rfl | rfl <;> decide)
  exact ⟨h.2.1, h.2.2.1⟩

/-! ## The percentages of the distribution section -/

theorem sum_percentages (l : List (String × Int)) (n : ℚ) :
    (l.map (fun e => ((e.2 : ℚ) / n) * 100)).sum
      = (((l.map Prod.snd).sum : Int) : ℚ) / n * 100 := by
  induction l with
  | nil => simp
  | cons e rest ih =>
    simp only [List.map_cons, List.sum_cons, ih, Int.cast_add]
    ring

/-- Claim C18. For every non-empty processor reached from the empty one by `addShape` calls,
the percentages of the distribution section of `analyzeCollection`, `count / total * 100` for
each entry of the type-count map in exact arithmetic, add up to exactly 100, and each of them
is strictly greater than 0 and at most 100. -/
theorem percentages_sum_to_100 (calls : List (Option Shape))
    (hne : (GeometryProcessor.build calls).shapes ≠ []) :
    ((GeometryProcessor.build calls).report.distribution.map (fun e => e.2.2)).sum = 100
      ∧ ∀ e ∈ (GeometryProcessor.build calls).report.distribution,
          0 < e.2.2 ∧ e.2.2 ≤ 100 := by
  have hcons : CountsConsistent (GeometryProcessor.build calls) :=
    countsConsistent_foldl calls GeometryProcessor.empty countsConsistent_empty
  have hlen : 0 < (GeometryProcessor.build calls).shapes.length :=
    List.length_pos.mpr hne
  have hn : (0 : ℚ) < (((GeometryProcessor.build calls).shapes.length : Nat) : ℚ) := by
    exact_mod_cast hlen
  constructor
  · have hmap : (GeometryProcessor.build calls).report.distribution.map (fun e => e.2.2)
        = (GeometryProcessor.build calls).shapeTypeCount.entries.map
            (fun e => ((e.2 : ℚ)
              / (((GeometryProcessor.build calls).shapes.length : Nat) : ℚ)) * 100) := by
      simp [GeometryProcessor.report, List.map_map, Function.comp_def]
    rw [hmap, sum_percentages, hcons.2.2]
    rw [Int.cast_natCast]
    field_simp
  · intro e he
    obtain ⟨e0, he0, rfl⟩ := List.mem_map.mp he
    have hcount := entry_count_of_consistent _ hcons e0 he0
    have hpos : (1 : Int) ≤ e0.2 := hcons.2.1 e0 he0
    have hle : e0.2 ≤ (((GeometryProcessor.build calls).shapes.length : Nat) : Int) := by
      rw [hcount]
      exact_mod_cast List.countP_le_length _
    have hposq : (0 : ℚ) < (e0.2 : ℚ) := by exact_mod_cast lt_of_lt_of_le zero_lt_one hpos
    have hleq : (e0.2 : ℚ) ≤ (((GeometryProcessor.build calls).shapes.length : Nat) : ℚ) := by
      exact_mod_cast hle
    constructor
    · show 0 < (e0.2 : ℚ) / _ * 100
      exact mul_pos (div_pos hposq hn) (by norm_num)
    · show (e0.2 : ℚ) / _ * 100 ≤ 100
      have hdiv : (e0.2 : ℚ) / (((GeometryProcessor.build calls).shapes.length : Nat) : ℚ)
          ≤ 1 := (div_le_one hn).mpr hleq
      linarith

/-- Witness of C18 on the demo collection: the percentages 50 and 50. -/
theorem percentages_sum_to_100_witness :
    (demoProcessor.report.distribution.map (fun e => e.2.2)).sum = 100
      ∧ ∀ e ∈ demoProcessor.report.distribution, 0 < e.2.2 ∧ e.2.2 ≤ 100 :=
  percentages_sum_to_100
    [some (Rectangle 5 3), some (Circle 2.5), some (Rectangle 8 4), some (Circle 1.5)]
    (by
      show demoProcessor.shapes ≠ []
      rw [demoProcessor_shapes]
      simp)

/-! ## Smallest, average and largest area -/

theorem sum_bounds (l : List ℚ) (lo hi : ℚ) (hlo : ∀ x ∈ l, lo ≤ x)
    (hhi : ∀ x ∈ l, x ≤ hi) :
    (l.length : ℚ) * lo ≤ l.sum ∧ l.sum ≤ (l.length : ℚ) * hi := by
  induction l with
  | nil => simp
  | cons a rest ih =>
    obtain ⟨h1, h2⟩ := ih (fun x hx => hlo x (List.mem_cons_of_mem _ hx))
      (fun x hx => hhi x (List.mem_cons_of_mem _ hx))
    have ha1 := hlo a (List.mem_cons_self _ _)
    have ha2 := hhi a (List.mem_cons_self _ _)
    simp only [List.length_cons, List.sum_cons, Nat.cast_add, Nat.cast_one]
    constructor
    · linarith
    · linarith

/-- Claim C19. For every non-empty collection, the values reported by `analyzeCollection`
satisfy, in exact arithmetic, smallest area at most average area at most largest area, and
`n` times the smallest area at most the total area at most `n` times the largest area, `n`
being the number of shapes. This holds whatever the areas are, so in particular when every
area is at least 0 and below `DBL_MAX`. -/
theorem smallest_average_largest_ordered (to_string : ℚ → String) (p : GeometryProcessor)
    (hne : p.shapes ≠ []) :
    p.analyzeCollection to_string = p.report.render to_string
      ∧ p.report.minArea ≤ p.report.averageArea
      ∧ p.report.averageArea ≤ p.report.maxArea
      ∧ (p.report.totalShapes : ℚ) * p.report.minArea ≤ p.report.totalArea
      ∧ p.report.totalArea ≤ (p.report.totalShapes : ℚ) * p.report.maxArea := by
  have hmaxb := (track_bounds Shape.area p.shapes (0, "")).2
  rw [← report_max p] at hmaxb
  have hminb := (track_bounds (fun t => -t.area) p.shapes (-DBL_MAX, "")).2
  rw [← report_min p] at hminb
  have htot : p.report.totalArea = (p.shapes.map Shape.area).sum := by
    show (analyzeLoop p.shapes).totalArea = _
    unfold analyzeLoop
    rw [(foldl_loopBody_totals p.shapes loopInit).1]
    simp [loopInit]
  obtain ⟨hlo, hhi⟩ := sum_bounds (p.shapes.map Shape.area) p.report.minArea p.report.maxArea
    (by
      intro x hx
      obtain ⟨s, hs, rfl⟩ := List.mem_map.mp hx
      exact neg_le_neg_iff.mp (hminb s hs))
    (by
      intro x hx
      obtain ⟨s, hs, rfl⟩ := List.mem_map.mp hx
      exact hmaxb s hs)
  rw [List.length_map, ← htot] at hlo hhi
  have hn : (0 : ℚ) < (p.shapes.length : ℚ) := by
    exact_mod_cast List.length_pos.mpr hne
  have havg : p.report.averageArea = p.report.totalArea / (p.shapes.length : ℚ) := rfl
  refine ⟨analyzeCollection_nonempty to_string p hne, ?_, ?_, hlo, hhi⟩
  · rw [havg, le_div_iff₀ hn]
    linarith
  · rw [havg, div_le_iff₀ hn]
    linarith

/-- Witness of C19 on the demo collection. -/
theorem smallest_average_largest_ordered_witness :
    demoProcessor.report.minArea ≤ demoProcessor.report.averageArea
      ∧ demoProcessor.report.averageArea ≤ demoProcessor.report.maxArea
      ∧ (demoProcessor.report.totalShapes : ℚ) * demoProcessor.report.minArea
          ≤ demoProcessor.report.totalArea
      ∧ demoProcessor.report.totalArea
          ≤ (demoProcessor.report.totalShapes : ℚ) * demoProcessor.report.maxArea :=
  (smallest_average_largest_ordered (fun q => toString q) demoProcessor
    (by rw [demoProcessor_shapes]; simp)).2

end GeometryDemo
